import Mathlib

/-!
Shallow embedding of `src/include/simple_vector.h` (class `SimpleVector<Type>`),
the dynamic-array container of this repository, together with proofs about its
specified behaviour.  `size_t` quantities are modelled as `Nat`; the element
type is a type `α` with a default value (`Type()`) and decidable equality; the
owned buffer is a `List α` whose length is the allocated element count.
Element-wise buffer writes (`std::fill`, `std::copy`, `std::move` over ranges,
and the explicit `for` loops of the source) are modelled by `writeSeq`, one
`List.set` per element, so a write past the end of the allocation (undefined
behaviour in the source) leaves the buffer unchanged instead of growing it.
`std::move` of an element is modelled as a value copy, so a range that was
moved out retains its values, as it does for trivially copyable element types.
A C++ `assert` whose condition fails aborts the program; an operation guarded
by an `assert` is modelled as returning `Option`, with `none` for the abort.
-/

namespace SpecVector

/-- Modelled from the spec: `array_ptr.h` (class `ArrayPtr`, the Owned Buffer)
is not part of `src/`; per the spec it "owns a single contiguously-allocated
run of N default-constructed elements".  `ArrayPtr<Type> temp(n)` is therefore
a buffer of `n` default-constructed values. -/
def arrayPtrCreate (α : Type) [Inhabited α] (n : Nat) : List α :=
  List.replicate n default

variable {α : Type}

/-- One element-wise write loop: write the elements of `xs` into `l` starting
at index `i` (`*it++ = x` repeatedly).  An out-of-bounds `List.set` is the
identity, so writes past the allocation are dropped. -/
def writeSeq : List α → Nat → List α → List α
  | l, _, [] => l
  | l, i, x :: xs => writeSeq (l.set i x) (i + 1) xs

/-- The loop `for (it = begin+i; it != begin+j; ++it) *it = x;`. -/
def fillRange (l : List α) (i j : Nat) (x : α) : List α :=
  writeSeq l i (List.replicate (j - i) x)


/-- The state of a `SimpleVector<Type>`: the owned buffer and the `size_` and
`capacity_` fields. -/
structure SimpleVector (α : Type) where
  items_ : List α
  size_ : Nat
  capacity_ : Nat
deriving Repr, DecidableEq

namespace SimpleVector

variable [Inhabited α] [DecidableEq α]

/-- `SimpleVector() noexcept = default;`: null buffer, `size_ = capacity_ = 0`. -/
def mkDefault : SimpleVector α := ⟨[], 0, 0⟩

/-- One bounded unfolding of the capacity-doubling loop of `Resize`. -/
def growCapFuel : Nat → Nat → Nat → Nat
  | 0, _, capacity_ => capacity_
  | fuel + 1, new_size, capacity_ =>
    if new_size > capacity_ then
      growCapFuel fuel new_size (if capacity_ = 0 then 1 else capacity_ * 2)
    else capacity_

/-- The doubling loop of `Resize`:
`while (new_size > capacity_) { capacity_ = (capacity_ == 0) ? 1 : capacity_ * 2; }`.
The explicit iteration bound `new_size + 1` exceeds the number of iterations
the loop can make (the capacity reaches `1` after one step and at least
doubles on each later step, and the loop stops as soon as it reaches
`new_size`); `le_growCap` below proves that the bounded loop indeed reaches
the loop's exit condition. -/
def growCap (new_size capacity_ : Nat) : Nat :=
  growCapFuel (new_size + 1) new_size capacity_

/-- `void Resize(size_t new_size) noexcept` (lines 229-251 of the header). -/
def Resize (v : SimpleVector α) (new_size : Nat) : SimpleVector α :=
  if new_size > v.size_ then
    let v1 : SimpleVector α :=
      if new_size > v.capacity_ then
        let cap := growCap new_size v.capacity_
        let temp := arrayPtrCreate α cap
        -- if (begin() != nullptr) std::move(begin(), end(), temp.Get());
        let temp := if v.items_ = [] then temp else writeSeq temp 0 (v.items_.take v.size_)
        { v with items_ := temp, capacity_ := cap }
      else v
    -- for (it = begin() + size_; it != begin() + new_size; ++it) *it = Type();
    { v1 with items_ := fillRange v1.items_ v.size_ new_size default, size_ := new_size }
  else
    { v with size_ := new_size }

/-- `void Reserve(size_t new_capacity)` (lines 211-227 of the header). -/
def Reserve (v : SimpleVector α) (new_capacity : Nat) : SimpleVector α :=
  if new_capacity > v.capacity_ then
    let temp := arrayPtrCreate α new_capacity
    -- if (begin() != end()) std::move(items_.Get(), items_.Get() + capacity_, temp.Get());
    let temp := if v.size_ = 0 then temp else writeSeq temp 0 (v.items_.take v.capacity_)
    -- for (it = temp + capacity_; it != temp + new_capacity; ++it) *it = Type();
    let temp := fillRange temp v.capacity_ new_capacity default
    { v with items_ := temp, capacity_ := new_capacity }
  else v

/-- `SimpleVector(size_t size, const Type& value)`: fresh buffer of `size`
elements filled with `value`; `size_ = capacity_ = size`. -/
def mkFill (size : Nat) (value : α) : SimpleVector α :=
  if size > 0 then
    { items_ := fillRange (arrayPtrCreate α size) 0 size value,
      size_ := size, capacity_ := size }
  else
    { items_ := [], size_ := size, capacity_ := size }

/-- `explicit SimpleVector(size_t size)` delegates to `SimpleVector(size, Type())`. -/
def mkSize (size : Nat) : SimpleVector α := mkFill size default

/-- `SimpleVector(ReserveProxyObj capacity)`: default-initialised fields,
then the member `Reserve(capacity.GetSize())`. -/
def mkReserve (capacity : Nat) : SimpleVector α := Reserve ⟨[], 0, 0⟩ capacity

/-- `SimpleVector(std::initializer_list<Type> init)`: fresh buffer of the list
length, elements copied in list order; `size_ = capacity_ =` list length. -/
def mkInit (init : List α) : SimpleVector α :=
  if init.length > 0 then
    { items_ := writeSeq (arrayPtrCreate α init.length) 0 init,
      size_ := init.length, capacity_ := init.length }
  else
    { items_ := [], size_ := init.length, capacity_ := init.length }

/-- `SimpleVector(const SimpleVector& other)` (lines 60-66): builds
`temp(other.GetSize())` — a buffer of `other.GetSize()` elements — copies
`other`'s live range into it with `std::copy`, then overwrites `temp.size_`
and `temp.capacity_` with `other`'s fields and swaps `temp` into `*this`. -/
def copyCtor (other : SimpleVector α) : SimpleVector α :=
  let temp : SimpleVector α := mkSize other.size_
  let temp := { temp with items_ := writeSeq temp.items_ 0 (other.items_.take other.size_) }
  { temp with size_ := other.size_, capacity_ := other.capacity_ }

/-- `SimpleVector(SimpleVector&& other)` (lines 68-74).  Returns the pair
(the constructed vector, `other` after the construction). -/
def moveCtor (other : SimpleVector α) : SimpleVector α × SimpleVector α :=
  let temp : SimpleVector α := ⟨[], 0, 0⟩
  -- temp.items_.swap(other.items_);
  let tempItems := other.items_
  let other := { other with items_ := temp.items_ }
  let temp := { temp with items_ := tempItems }
  -- temp.size_ = std::exchange(other.size_, 0);
  let temp := { temp with size_ := other.size_ }
  let other := { other with size_ := 0 }
  -- temp.capacity_ = std::exchange(other.capacity_, 0);
  let temp := { temp with capacity_ := other.capacity_ }
  let other := { other with capacity_ := 0 }
  -- swap(temp): *this had default-initialised fields, so *this becomes temp.
  (temp, other)

/-- `operator==` (lines 270-272):
`(&lhs == &rhs) || (lhs.GetSize() == rhs.GetSize() && std::equal(lhs.begin(), lhs.end(), rhs.begin()))`.
`std::equal` compares the `lhs.GetSize()` leading elements of both buffers.
At the value level the address-equality disjunct is subsumed by the second
disjunct: for the same object the sizes and the compared ranges coincide. -/
def vecEq (lhs rhs : SimpleVector α) : Bool :=
  lhs.size_ == rhs.size_ &&
    decide (lhs.items_.take lhs.size_ = rhs.items_.take lhs.size_)

/-- `operator=(const SimpleVector& rhs)` (lines 76-81):
`assert(*this != rhs); SimpleVector temp(rhs); swap(temp);`.
`none` models the failed assertion (the program aborts). -/
def copyAssign (self rhs : SimpleVector α) : Option (SimpleVector α) :=
  if vecEq self rhs then none else some (copyCtor rhs)

/-- `operator=(SimpleVector&& rhs)` (lines 83-88):
`assert(*this != rhs); this->Resize(rhs.GetSize()); std::move(rhs.begin(), rhs.end(), begin());`.
`none` models the failed assertion. -/
def moveAssign (self rhs : SimpleVector α) : Option (SimpleVector α) :=
  if vecEq self rhs then none
  else
    let v := Resize self rhs.size_
    some { v with items_ := writeSeq v.items_ 0 (rhs.items_.take rhs.size_) }

/-- `void PushBack(const Type& item)` / the `Type&&` overload (lines 186-196):
`Resize(size_ + 1); *(end() - 1) = item;`. -/
def PushBack (v : SimpleVector α) (item : α) : SimpleVector α :=
  let v := Resize v (v.size_ + 1)
  { v with items_ := v.items_.set (v.size_ - 1) item }

/-- `void PopBack() noexcept` (lines 198-202): `assert(size_ > 0); --size_;`. -/
def PopBack (v : SimpleVector α) : Option (SimpleVector α) :=
  if v.size_ = 0 then none
  else some { v with size_ := v.size_ - 1 }

/-- `Iterator Insert(ConstIterator pos, Type&& value)` (lines 96-113).
`pos` is the index of the insertion position (`begin() + pos`); the returned
`Nat` is the index of the returned iterator. -/
def Insert (v : SimpleVector α) (pos : Nat) (value : α) : SimpleVector α × Nat :=
  if v.size_ = 0 then
    -- begin() == end(): Resize(size_ + 1); *begin() = std::move(value); return begin();
    let v := Resize v (v.size_ + 1)
    ({ v with items_ := v.items_.set 0 value }, 0)
  else
    let dist := v.size_ - pos                                   -- std::distance(p, end())
    -- ArrayPtr<Type> temp(dist); std::move(p, end(), temp.Get());
    let temp := writeSeq (arrayPtrCreate α dist) 0 ((v.items_.drop pos).take dist)
    let v1 := Resize v (v.size_ + 1)
    let t := v1.size_ - dist - 1                                -- end() - dist - 1
    let v2 := { v1 with items_ := v1.items_.set t value }       -- *t = std::move(value);
    -- std::move(temp.Get(), temp.Get() + dist, t + 1);
    ({ v2 with items_ := writeSeq v2.items_ (t + 1) temp }, t)

/-- `Iterator Erase(ConstIterator pos)` (lines 115-125): `assert(size_ > 0);`
then `--size_; std::move(pos + 1, end(), pos);` with `end()` computed before
the decrement; returns `pos`.  The returned `Nat` is the iterator's index. -/
def Erase (v : SimpleVector α) (pos : Nat) : Option (SimpleVector α × Nat) :=
  if v.size_ = 0 then none
  else
    let moved := (v.items_.drop (pos + 1)).take (v.size_ - (pos + 1))
    some ({ v with items_ := writeSeq v.items_ pos moved, size_ := v.size_ - 1 }, pos)

/-- `void swap(SimpleVector& other) noexcept` (lines 204-209): exchanges the
buffer, `size_` and `capacity_` fields; net effect, the two states trade. -/
def swap (a b : SimpleVector α) : SimpleVector α × SimpleVector α := (b, a)

/-- `size_t GetSize() const noexcept`. -/
def GetSize (v : SimpleVector α) : Nat := v.size_

/-- `size_t GetCapacity() const noexcept`. -/
def GetCapacity (v : SimpleVector α) : Nat := v.capacity_

/-- `bool IsEmpty() const noexcept`. -/
def IsEmpty (v : SimpleVector α) : Bool := v.size_ == 0

/-- `void Clear() noexcept`: `size_ = 0;`, buffer and capacity untouched. -/
def Clear (v : SimpleVector α) : SimpleVector α := { v with size_ := 0 }

/-- `operator[]` (lines 149-155): unchecked `items_[index]`; an out-of-range
read is undefined behaviour in the source and reads the default value here. -/
def getUnchecked (v : SimpleVector α) (index : Nat) : α :=
  v.items_.getD index default

/-- `Type& At(size_t index)` (lines 253-267): throws `std::out_of_range`
(modelled as `none`) iff `index >= size_`, else returns `items_[index]`. -/
def At (v : SimpleVector α) (index : Nat) : Option α :=
  if index ≥ v.size_ then none else some (v.items_.getD index default)

/-- The live elements `[0, size)` of a vector, the user-visible contents. -/
def live (v : SimpleVector α) : List α := v.items_.take v.size_

/-- The representation invariant stated by the spec: `size <= capacity` and
the vector owns a buffer of exactly `capacity` allocated elements. -/
def WF (v : SimpleVector α) : Prop :=
  v.size_ ≤ v.capacity_ ∧ v.items_.length = v.capacity_

instance (v : SimpleVector α) : Decidable (WF v) := by
  unfold WF; infer_instance

end SimpleVector

/-! Pure list lemmas about the element-wise write loops. -/

theorem length_writeSeq (xs : List α) : ∀ (l : List α) (i : Nat),
    (writeSeq l i xs).length = l.length := by
  induction xs with
  | nil => intro l i; rfl
  | cons x xs ih => intro l i; rw [writeSeq, ih, List.length_set]

theorem take_succ_set (l : List α) : ∀ (i : Nat) (x : α), i < l.length →
    (l.set i x).take (i + 1) = l.take i ++ [x] := by
  induction l with
  | nil => intro i x h; simp at h
  | cons a as ih =>
    intro i x h
    cases i with
    | zero => simp
    | succ i =>
      rw [List.set_cons_succ, List.take_succ_cons, List.take_succ_cons,
        ih i x (by simpa using h)]
      rfl

theorem writeSeq_eq_append (xs : List α) : ∀ (l : List α) (i : Nat),
    i + xs.length ≤ l.length →
    writeSeq l i xs = l.take i ++ xs ++ l.drop (i + xs.length) := by
  induction xs with
  | nil =>
    intro l i h
    simp only [writeSeq, List.length_nil, Nat.add_zero, List.append_nil]
    exact (List.take_append_drop i l).symm
  | cons x xs ih =>
    intro l i h
    have hlen : i < l.length := by simp at h; omega
    rw [writeSeq, ih (l.set i x) (i + 1) (by rw [List.length_set]; simp at h ⊢; omega)]
    rw [take_succ_set l i x hlen, List.drop_set_of_lt x l (by omega)]
    have harith : i + 1 + xs.length = i + (x :: xs).length := by simp; omega
    rw [harith]
    simp [List.append_assoc]

theorem writeSeq_full (xs l : List α) (h : xs.length = l.length) :
    writeSeq l 0 xs = xs := by
  rw [writeSeq_eq_append xs l 0 (by omega)]
  simp [h, List.drop_length]

theorem length_fillRange (l : List α) (i j : Nat) (x : α) :
    (fillRange l i j x).length = l.length :=
  length_writeSeq _ l i

theorem fillRange_eq (l : List α) (i j : Nat) (x : α) (h1 : i ≤ j)
    (h2 : j ≤ l.length) :
    fillRange l i j x = l.take i ++ List.replicate (j - i) x ++ l.drop j := by
  unfold fillRange
  rw [writeSeq_eq_append _ _ _ (by simp; omega)]
  have harith : i + (List.replicate (j - i) x).length = j := by simp; omega
  rw [harith]

namespace SimpleVector

/-! Lemmas about the capacity-doubling loop. -/

theorem growCapFuel_ge : ∀ (fuel n c : Nat), 1 ≤ c → n ≤ c * 2 ^ fuel →
    n ≤ SimpleVector.growCapFuel fuel n c := by
  intro fuel
  induction fuel with
  | zero => intro n c _ h; simpa using h
  | succ fuel ih =>
    intro n c hc h
    rw [SimpleVector.growCapFuel]
    split
    · rw [if_neg (by omega)]
      refine ih n (c * 2) (by omega) ?_
      rw [Nat.pow_succ] at h
      exact h.trans_eq (by ring)
    · omega

theorem growCapFuel_doubling : ∀ (fuel n c : Nat), 1 ≤ c → n ≤ c * 2 ^ fuel →
    ∃ k, SimpleVector.growCapFuel fuel n c = c * 2 ^ k ∧ n ≤ c * 2 ^ k ∧
      ∀ j < k, c * 2 ^ j < n := by
  intro fuel
  induction fuel with
  | zero =>
    intro n c _ h
    exact ⟨0, by simp [SimpleVector.growCapFuel], by simpa using h, by omega⟩
  | succ fuel ih =>
    intro n c hc h
    rw [SimpleVector.growCapFuel]
    by_cases hgt : n > c
    · rw [if_pos hgt, if_neg (by omega)]
      obtain ⟨k, hk1, hk2, hk3⟩ :=
        ih n (c * 2) (by omega) (by rw [Nat.pow_succ] at h; exact h.trans_eq (by ring))
      refine ⟨k + 1, ?_, ?_, ?_⟩
      · rw [hk1, Nat.pow_succ]; ring
      · rw [Nat.pow_succ]; calc n ≤ c * 2 * 2 ^ k := hk2
          _ = c * (2 ^ k * 2) := by ring
      · intro j hj
        cases j with
        | zero => simpa using hgt
        | succ j =>
          have := hk3 j (by omega)
          calc c * 2 ^ (j + 1) = c * 2 * 2 ^ j := by ring
            _ < n := this
    · exact ⟨0, by rw [if_neg hgt]; simp, by simpa using Nat.le_of_not_lt hgt, by omega⟩

theorem le_growCap (n c : Nat) : n ≤ SimpleVector.growCap n c := by
  unfold SimpleVector.growCap
  by_cases hc : c = 0
  · subst hc
    rw [SimpleVector.growCapFuel]
    by_cases hn : n > 0
    · rw [if_pos hn, if_pos rfl]
      exact growCapFuel_ge n n 1 (by omega)
        (by have := Nat.lt_two_pow n; omega)
    · omega
  · refine growCapFuel_ge (n + 1) n c (by omega) ?_
    have h1 : n < 2 ^ n := Nat.lt_two_pow n
    have h2 : (2 : Nat) ^ n ≤ 2 ^ (n + 1) := Nat.pow_le_pow_right (by omega) (by omega)
    have h3 : 2 ^ (n + 1) ≤ c * 2 ^ (n + 1) := Nat.le_mul_of_pos_left _ (by omega)
    omega

theorem growCap_doubling (n c : Nat) (h : c < n) :
    ∃ k, SimpleVector.growCap n c = max 1 c * 2 ^ k ∧ n ≤ max 1 c * 2 ^ k ∧
      ∀ j < k, max 1 c * 2 ^ j < n := by
  unfold SimpleVector.growCap
  by_cases hc : c = 0
  · subst hc
    rw [SimpleVector.growCapFuel, if_pos (by omega), if_pos rfl]
    have hmax : max 1 0 = 1 := rfl
    rw [hmax]
    exact growCapFuel_doubling n n 1 (by omega)
      (by have := Nat.lt_two_pow n; omega)
  · have hmax : max 1 c = c := by omega
    rw [hmax]
    refine growCapFuel_doubling (n + 1) n c (by omega) ?_
    have h1 : n < 2 ^ n := Nat.lt_two_pow n
    have h2 : (2 : Nat) ^ n ≤ 2 ^ (n + 1) := Nat.pow_le_pow_right (by omega) (by omega)
    have h3 : 2 ^ (n + 1) ≤ c * 2 ^ (n + 1) := Nat.le_mul_of_pos_left _ (by omega)
    omega

variable [Inhabited α] [DecidableEq α]

/-! Behaviour of `Resize`. -/

theorem Resize_size (v : SimpleVector α) (n : Nat) : (Resize v n).size_ = n := by
  unfold Resize
  split <;> rfl

theorem Resize_shrink (v : SimpleVector α) (n : Nat) (h : n ≤ v.size_) :
    Resize v n = { v with size_ := n } := by
  unfold Resize
  rw [if_neg (by omega)]

theorem Resize_fits_eq (v : SimpleVector α) (n : Nat) (h : n > v.size_)
    (hc : ¬ n > v.capacity_) :
    Resize v n = { v with items_ := fillRange v.items_ v.size_ n default, size_ := n } := by
  unfold Resize
  rw [if_pos h, if_neg hc]

theorem Resize_realloc_eq (v : SimpleVector α) (n : Nat) (h : n > v.size_)
    (hc : n > v.capacity_) :
    Resize v n =
      { items_ :=
          fillRange
            (if v.items_ = [] then arrayPtrCreate α (growCap n v.capacity_)
             else writeSeq (arrayPtrCreate α (growCap n v.capacity_)) 0
               (v.items_.take v.size_))
            v.size_ n default,
        size_ := n,
        capacity_ := growCap n v.capacity_ } := by
  unfold Resize
  rw [if_pos h, if_pos hc]

theorem Resize_grow_items (v : SimpleVector α) (n : Nat) (hwf : WF v)
    (h : v.size_ < n) :
    (Resize v n).items_.take n =
      v.items_.take v.size_ ++ List.replicate (n - v.size_) default ∧
    (Resize v n).items_.length =
      (if n > v.capacity_ then growCap n v.capacity_ else v.capacity_) ∧
    (Resize v n).capacity_ =
      (if n > v.capacity_ then growCap n v.capacity_ else v.capacity_) := by
  obtain ⟨hsc, hlen⟩ := hwf
  have htake_len : (v.items_.take v.size_).length = v.size_ := by
    rw [List.length_take]; omega
  by_cases hc : n > v.capacity_
  · rw [if_pos hc, Resize_realloc_eq v n h hc]
    have hncap : n ≤ growCap n v.capacity_ := le_growCap n v.capacity_
    have hscap : v.size_ ≤ growCap n v.capacity_ := by omega
    have hmove : (if v.items_ = [] then arrayPtrCreate α (growCap n v.capacity_)
        else writeSeq (arrayPtrCreate α (growCap n v.capacity_)) 0
          (v.items_.take v.size_))
        = v.items_.take v.size_ ++
            List.replicate (growCap n v.capacity_ - v.size_) default := by
      by_cases hnil : v.items_ = []
      · have hsz : v.size_ = 0 := by
          rw [hnil] at hlen; simp at hlen; omega
        rw [if_pos hnil, hnil, hsz]
        simp [arrayPtrCreate]
      · rw [if_neg hnil,
          writeSeq_eq_append _ _ _ (by simp [arrayPtrCreate]; omega)]
        rw [htake_len]
        simp [arrayPtrCreate, List.drop_replicate]
    rw [hmove]
    refine ⟨?_, ?_, rfl⟩
    · rw [fillRange_eq _ _ _ _ (by omega) (by simp [htake_len]; omega)]
      have hA : List.take v.size_ (v.items_.take v.size_ ++
          List.replicate (growCap n v.capacity_ - v.size_) default) =
          v.items_.take v.size_ := by
        rw [List.take_append_of_le_length (le_of_eq htake_len.symm),
          List.take_of_length_le (le_of_eq htake_len)]
      rw [hA, List.take_left' (by simp [htake_len]; omega)]
    · rw [length_fillRange]
      simp [htake_len]
      omega
  · rw [if_neg hc, Resize_fits_eq v n h hc]
    refine ⟨?_, ?_, rfl⟩
    · rw [fillRange_eq _ _ _ _ (by omega) (by omega)]
      rw [List.take_left' (by simp [htake_len]; omega)]
    · rw [length_fillRange, hlen]

theorem WF_Resize (v : SimpleVector α) (n : Nat) (hwf : WF v) :
    WF (Resize v n) := by
  rcases le_or_lt n v.size_ with hle | hlt
  · rw [Resize_shrink v n hle]
    obtain ⟨h1, h2⟩ := hwf
    constructor
    · show n ≤ v.capacity_
      omega
    · show v.items_.length = v.capacity_
      exact h2
  · obtain ⟨h1, h2, h3⟩ := Resize_grow_items v n hwf hlt
    constructor
    · rw [Resize_size, h3]
      split
      · exact le_growCap n _
      · omega
    · rw [h2, h3]

theorem live_Resize_grow (v : SimpleVector α) (n : Nat) (hwf : WF v)
    (hlt : v.size_ < n) :
    live (Resize v n) = live v ++ List.replicate (n - v.size_) default := by
  unfold live
  rw [Resize_size]
  exact (Resize_grow_items v n hwf hlt).1

/-! Behaviour of `Reserve`. -/

omit [DecidableEq α] in
theorem Reserve_noop (v : SimpleVector α) (nc : Nat) (h : nc ≤ v.capacity_) :
    Reserve v nc = v := by
  unfold Reserve
  rw [if_neg (by omega)]

omit [DecidableEq α] in
theorem Reserve_grow_eq (v : SimpleVector α) (nc : Nat) (hc : nc > v.capacity_) :
    Reserve v nc =
      { v with
        items_ := fillRange
          (if v.size_ = 0 then arrayPtrCreate α nc
           else writeSeq (arrayPtrCreate α nc) 0 (v.items_.take v.capacity_))
          v.capacity_ nc default,
        capacity_ := nc } := by
  unfold Reserve
  rw [if_pos hc]

/-! Behaviour of `Insert`: the non-empty branch, with the let bindings of the
definition expanded. -/

theorem Insert_nonempty_eq (v : SimpleVector α) (pos : Nat) (value : α)
    (hs : ¬ v.size_ = 0) :
    Insert v pos value =
      ({ items_ :=
           writeSeq
             ((Resize v (v.size_ + 1)).items_.set
               ((Resize v (v.size_ + 1)).size_ - (v.size_ - pos) - 1) value)
             ((Resize v (v.size_ + 1)).size_ - (v.size_ - pos) - 1 + 1)
             (writeSeq (arrayPtrCreate α (v.size_ - pos)) 0
               ((v.items_.drop pos).take (v.size_ - pos))),
         size_ := (Resize v (v.size_ + 1)).size_,
         capacity_ := (Resize v (v.size_ + 1)).capacity_ },
       (Resize v (v.size_ + 1)).size_ - (v.size_ - pos) - 1) := by
  unfold Insert
  rw [if_neg hs]

end SimpleVector

/-! Claim theorems. -/

open SimpleVector

/-- Claim C1 (refuted, code bug): self-assignment is NOT a no-op.  Both
assignment operators begin with `assert(*this != rhs)`; for `a = a` the
comparison `*this != rhs` evaluates to `false`, so the assertion fires and
the program aborts (modelled as `none`) instead of leaving `a` unchanged. -/
theorem c1_self_assignment_fires_assert :
    copyAssign (mkInit [1, 2, 3] : SimpleVector Nat) (mkInit [1, 2, 3]) = none ∧
    moveAssign (mkInit [1, 2, 3] : SimpleVector Nat) (mkInit [1, 2, 3]) = none := by
  decide

/-- Claim C2 (refuted, code bug): the copy constructor does not allocate a
buffer of the source's capacity.  Copying a reachable vector with size 1 and
capacity 2 (obtained from `{1, 2}` by `PopBack`) yields a copy whose
`GetSize`/`GetCapacity` match the source but whose freshly allocated buffer
holds only 1 element, not `capacity = 2` elements. -/
theorem c2_copy_ctor_allocates_size_not_capacity :
    PopBack (mkInit [1, 2] : SimpleVector Nat) = some ⟨[1, 2], 1, 2⟩ ∧
    GetSize (copyCtor (⟨[1, 2], 1, 2⟩ : SimpleVector Nat)) = 1 ∧
    GetCapacity (copyCtor (⟨[1, 2], 1, 2⟩ : SimpleVector Nat)) = 2 ∧
    (copyCtor (⟨[1, 2], 1, 2⟩ : SimpleVector Nat)).items_.length = 1 := by
  decide

/-- Claim C9 (refuted, code bug): the invariant "size ≤ capacity and the
owned buffer has exactly `capacity` elements" is not preserved by every
public operation: copy construction from the well-formed, reachable state
with size 1 and capacity 2 produces a vector violating it. -/
theorem c9_invariant_not_preserved_by_copy :
    WF (⟨[1, 2], 1, 2⟩ : SimpleVector Nat) ∧
    PopBack (mkInit [1, 2] : SimpleVector Nat) = some ⟨[1, 2], 1, 2⟩ ∧
    ¬ WF (copyCtor (⟨[1, 2], 1, 2⟩ : SimpleVector Nat)) := by
  decide

/-- Claim C4: `At(i)` signals out-of-range (`none`) exactly when `i ≥ size`
(in particular always on an empty vector), and on every valid index `i < size`
it returns the same element as the unchecked `operator[]`. -/
theorem c4_at_spec {α : Type} [Inhabited α] (v : SimpleVector α) (i : Nat) :
    (At v i = none ↔ v.size_ ≤ i) ∧
    (v.size_ = 0 → At v i = none) ∧
    (i < v.size_ → At v i = some (getUnchecked v i)) := by
  unfold At getUnchecked
  refine ⟨?_, ?_, ?_⟩
  · split
    · simp_all
    · simp_all
  · intro h
    rw [if_pos (by omega)]
  · intro h
    rw [if_neg (by omega)]

/-- Witness for C4 at concrete inputs: a valid index agrees with unchecked
access, and indices at or beyond the size fail, including for size 0. -/
theorem c4_at_spec_witness :
    At (mkInit [5, 7] : SimpleVector Nat) 1 = some (getUnchecked (mkInit [5, 7]) 1) ∧
    At (mkInit [5, 7] : SimpleVector Nat) 2 = none ∧
    At (mkDefault : SimpleVector Nat) 0 = none :=
  ⟨(c4_at_spec (mkInit [5, 7]) 1).2.2 (by decide),
   (c4_at_spec (mkInit [5, 7]) 2).1.mpr (by decide),
   (c4_at_spec (mkDefault : SimpleVector Nat) 0).2.1 (by decide)⟩

/-- Claim C8: move construction transfers the source's buffer, size and
capacity to the new vector — it holds the source's former elements in order
with the source's former size and capacity — and resets the source to the
empty state `size = capacity = 0`, a valid (well-formed) state. -/
theorem c8_move_ctor_transfers_and_resets {α : Type} (s : SimpleVector α) :
    live (moveCtor s).1 = live s ∧
    GetSize (moveCtor s).1 = GetSize s ∧
    GetCapacity (moveCtor s).1 = GetCapacity s ∧
    (moveCtor s).2 = mkDefault ∧
    GetSize (moveCtor s).2 = 0 ∧
    GetCapacity (moveCtor s).2 = 0 ∧
    WF (moveCtor s).2 := by
  exact ⟨rfl, rfl, rfl, rfl, rfl, rfl, Nat.le_refl 0, rfl⟩

/-- Claim C10: both assignment operators begin with `assert(*this != rhs)`,
so assignment fails the assertion exactly when the two vectors are
element-wise equal (equal size and equal live elements; in particular the
same object, whose comparison with itself is always `true`), and the
assignments complete exactly when source and destination differ in value. -/
theorem c10_assign_asserts_on_equal {α : Type} [Inhabited α] [DecidableEq α]
    (a b : SimpleVector α) :
    vecEq a a = true ∧
    (copyAssign a b = none ↔ vecEq a b = true) ∧
    (moveAssign a b = none ↔ vecEq a b = true) := by
  refine ⟨by simp [vecEq], ?_, ?_⟩
  · unfold copyAssign
    split
    · simp_all
    · simp_all
  · unfold moveAssign
    split
    · simp_all
    · simp_all

/-- Claim C3: behaviour of `Resize(new_size)` on a well-formed vector.  If
`new_size ≤ size`, only the logical size changes (the buffer and capacity are
untouched, so elements `[0, new_size)` are unchanged).  If
`size < new_size ≤ capacity`, the capacity is unchanged, the live prefix is
preserved, and slots `[size, new_size)` are reset to the default-constructed
value.  If `new_size > capacity`, the live contents become the old live
elements (in order) followed by defaults on `[size, new_size)`, and the new
capacity is exactly the value of the doubling loop
`capacity = max(1, capacity); while capacity < new_size: capacity *= 2`:
the least `max(1, capacity) * 2 ^ k` that reaches `new_size`.  In every case
the new size is `new_size`. -/
theorem c3_resize_spec {α : Type} [Inhabited α] [DecidableEq α]
    (v : SimpleVector α) (n : Nat) (hwf : WF v) :
    (Resize v n).size_ = n ∧
    (n ≤ v.size_ →
      (Resize v n).items_ = v.items_ ∧ (Resize v n).capacity_ = v.capacity_) ∧
    (v.size_ < n → n ≤ v.capacity_ →
      (Resize v n).capacity_ = v.capacity_ ∧
      live (Resize v n) = live v ++ List.replicate (n - v.size_) default) ∧
    (v.size_ < n → v.capacity_ < n →
      live (Resize v n) = live v ++ List.replicate (n - v.size_) default ∧
      ∃ k, (Resize v n).capacity_ = max 1 v.capacity_ * 2 ^ k ∧
        n ≤ max 1 v.capacity_ * 2 ^ k ∧
        ∀ j < k, max 1 v.capacity_ * 2 ^ j < n) := by
  refine ⟨Resize_size v n, ?_, ?_, ?_⟩
  · intro h
    rw [Resize_shrink v n h]
    exact ⟨rfl, rfl⟩
  · intro h1 h2
    refine ⟨?_, live_Resize_grow v n hwf h1⟩
    have hcap := (Resize_grow_items v n hwf h1).2.2
    rwa [if_neg (by omega)] at hcap
  · intro h1 h2
    refine ⟨live_Resize_grow v n hwf h1, ?_⟩
    have hcap := (Resize_grow_items v n hwf h1).2.2
    rw [if_pos (by omega)] at hcap
    obtain ⟨k, hk1, hk2, hk3⟩ := growCap_doubling n v.capacity_ h2
    exact ⟨k, by rw [hcap, hk1], hk2, hk3⟩

/-- Witness for C3 at a concrete input: `Resize` of `{1, 2, 3}` to 5 keeps
the live prefix, appends defaults, and doubles capacity 3 to 6. -/
theorem c3_resize_spec_witness :
    WF (mkInit [1, 2, 3] : SimpleVector Nat) ∧
    live (Resize (mkInit [1, 2, 3] : SimpleVector Nat) 5) =
      live (mkInit [1, 2, 3] : SimpleVector Nat) ++ List.replicate 2 0 ∧
    (∃ k, (Resize (mkInit [1, 2, 3] : SimpleVector Nat) 5).capacity_ =
        max 1 3 * 2 ^ k ∧ 5 ≤ max 1 3 * 2 ^ k ∧ ∀ j < k, max 1 3 * 2 ^ j < 5) :=
  ⟨by decide,
   ((c3_resize_spec (mkInit [1, 2, 3]) 5 (by decide)).2.2.2 (by decide) (by decide)).1,
   ((c3_resize_spec (mkInit [1, 2, 3]) 5 (by decide)).2.2.2 (by decide) (by decide)).2⟩

/-- Claim C7: `Reserve(new_capacity)` on a well-formed vector is a no-op when
`new_capacity ≤ capacity`; otherwise it installs a fresh buffer of exactly
`new_capacity` elements, preserves the live elements `[0, size)` in order,
and every slot beyond the old capacity up to `new_capacity` holds the
default-constructed value.  The size is unchanged in all cases. -/
theorem c7_reserve_spec {α : Type} [Inhabited α]
    (v : SimpleVector α) (nc : Nat) (hwf : WF v) :
    (nc ≤ v.capacity_ → Reserve v nc = v) ∧
    (Reserve v nc).size_ = v.size_ ∧
    (v.capacity_ < nc →
      (Reserve v nc).capacity_ = nc ∧
      (Reserve v nc).items_.length = nc ∧
      live (Reserve v nc) = live v ∧
      (Reserve v nc).items_.drop v.capacity_ =
        List.replicate (nc - v.capacity_) default) := by
  obtain ⟨hsc, hlen⟩ := hwf
  refine ⟨Reserve_noop v nc, ?_, ?_⟩
  · rcases le_or_lt nc v.capacity_ with hle | hlt
    · rw [Reserve_noop v nc hle]
    · rw [Reserve_grow_eq v nc hlt]
  · intro hc
    rw [Reserve_grow_eq v nc hc]
    by_cases hs : v.size_ = 0
    · rw [if_pos hs]
      have hitems : fillRange (arrayPtrCreate α nc) v.capacity_ nc default
          = List.replicate nc (default : α) := by
        rw [fillRange_eq _ _ _ _ (by omega) (by simp [arrayPtrCreate])]
        simp [arrayPtrCreate, List.take_replicate, List.drop_replicate]
        omega
      rw [hitems]
      refine ⟨rfl, by simp, ?_, by simp [List.drop_replicate]⟩
      unfold live
      simp [hs]
    · rw [if_neg hs]
      have htakecap : v.items_.take v.capacity_ = v.items_ :=
        List.take_of_length_le (le_of_eq hlen)
      rw [htakecap]
      have hws : writeSeq (arrayPtrCreate α nc) 0 v.items_
          = v.items_ ++ List.replicate (nc - v.capacity_) default := by
        rw [writeSeq_eq_append _ _ _ (by simp [arrayPtrCreate]; omega)]
        simp [arrayPtrCreate, List.drop_replicate, hlen]
      rw [hws]
      have hlen2 : (v.items_ ++ List.replicate (nc - v.capacity_) (default : α)).length
          = nc := by
        simp [hlen]; omega
      have hfill : fillRange (v.items_ ++ List.replicate (nc - v.capacity_) default)
          v.capacity_ nc default
          = v.items_ ++ List.replicate (nc - v.capacity_) default := by
        rw [fillRange_eq _ _ _ _ (by omega) (le_of_eq hlen2.symm)]
        rw [List.take_append_of_le_length (le_of_eq hlen.symm),
          List.take_of_length_le (le_of_eq hlen),
          List.drop_of_length_le (le_of_eq hlen2)]
        simp
      rw [hfill]
      refine ⟨rfl, hlen2, ?_, List.drop_left' hlen⟩
      show List.take v.size_ (v.items_ ++ List.replicate (nc - v.capacity_) default)
        = List.take v.size_ v.items_
      exact List.take_append_of_le_length (by omega)

/-- Witness for C7 at a concrete input: `Reserve` of `{1, 2}` to 5 keeps the
live elements and size, allocates 5 slots, and defaults the new slots. -/
theorem c7_reserve_spec_witness :
    (Reserve (mkInit [1, 2] : SimpleVector Nat) 5).size_ =
      (mkInit [1, 2] : SimpleVector Nat).size_ ∧
    (Reserve (mkInit [1, 2] : SimpleVector Nat) 5).capacity_ = 5 ∧
    live (Reserve (mkInit [1, 2] : SimpleVector Nat) 5) =
      live (mkInit [1, 2] : SimpleVector Nat) ∧
    (Reserve (mkInit [1, 2] : SimpleVector Nat) 5).items_.drop 2 =
      List.replicate 3 0 :=
  ⟨(c7_reserve_spec (mkInit [1, 2]) 5 (by decide)).2.1,
   ((c7_reserve_spec (mkInit [1, 2]) 5 (by decide)).2.2 (by decide)).1,
   ((c7_reserve_spec (mkInit [1, 2]) 5 (by decide)).2.2 (by decide)).2.2.1,
   ((c7_reserve_spec (mkInit [1, 2]) 5 (by decide)).2.2 (by decide)).2.2.2⟩

/-- Claim C5: for every well-formed vector and every insertion position
`pos ≤ size` (begin to end inclusive; empty vector and size-equals-capacity
vector included, the latter forcing a reallocation mid-operation), `Insert`
places `value` immediately before the elements that were at or after `pos`,
preserves the relative order of all other elements, grows the size by 1, and
returns the iterator at index `pos`, the inserted element's position. -/
theorem c5_insert_spec {α : Type} [Inhabited α] [DecidableEq α]
    (v : SimpleVector α) (pos : Nat) (value : α) (hwf : WF v)
    (hpos : pos ≤ v.size_) :
    live (Insert v pos value).1 =
      (live v).take pos ++ value :: (live v).drop pos ∧
    (Insert v pos value).1.size_ = v.size_ + 1 ∧
    (Insert v pos value).2 = pos := by
  obtain ⟨hsc, hlen⟩ := hwf
  have hR := Resize_grow_items v (v.size_ + 1) ⟨hsc, hlen⟩ (by omega)
  have hRlen : v.size_ + 1 ≤ (Resize v (v.size_ + 1)).items_.length := by
    rw [hR.2.1]
    split
    · have := le_growCap (v.size_ + 1) v.capacity_
      omega
    · omega
  by_cases hs : v.size_ = 0
  · unfold SimpleVector.Insert
    rw [if_pos hs]
    have hpos0 : pos = 0 := by omega
    refine ⟨?_, Resize_size v (v.size_ + 1), by show (0 : Nat) = pos; omega⟩
    show ((Resize v (v.size_ + 1)).items_.set 0 value).take
        ((Resize v (v.size_ + 1)).size_)
      = (live v).take pos ++ value :: (live v).drop pos
    have hlive : live v = [] := by
      unfold live
      rw [hs]
      rfl
    rw [Resize_size, hpos0, hlive]
    have h01 : v.size_ + 1 = 0 + 1 := by omega
    rw [h01, take_succ_set _ 0 value (by rw [← h01]; omega)]
    simp
  · rw [Insert_nonempty_eq v pos value hs]
    have htemp : writeSeq (arrayPtrCreate α (v.size_ - pos)) 0
        ((v.items_.drop pos).take (v.size_ - pos)) = (live v).drop pos := by
      have hl1 : ((v.items_.drop pos).take (v.size_ - pos)).length
          = v.size_ - pos := by
        simp [List.length_take, List.length_drop]
        omega
      rw [writeSeq_full _ _ (by rw [hl1]; simp [arrayPtrCreate])]
      unfold live
      rw [List.drop_take]
    refine ⟨?_, Resize_size v (v.size_ + 1), ?_⟩
    · show (writeSeq
          ((Resize v (v.size_ + 1)).items_.set
            ((Resize v (v.size_ + 1)).size_ - (v.size_ - pos) - 1) value)
          ((Resize v (v.size_ + 1)).size_ - (v.size_ - pos) - 1 + 1)
          (writeSeq (arrayPtrCreate α (v.size_ - pos)) 0
            ((v.items_.drop pos).take (v.size_ - pos)))).take
          ((Resize v (v.size_ + 1)).size_)
        = (live v).take pos ++ value :: (live v).drop pos
      rw [htemp, Resize_size]
      have hT : v.size_ + 1 - (v.size_ - pos) - 1 = pos := by omega
      rw [hT]
      have hdroplen : ((live v).drop pos).length = v.size_ - pos := by
        simp [live, List.length_drop, List.length_take]
        omega
      rw [writeSeq_eq_append _ _ _
        (by rw [List.length_set, hdroplen]; omega)]
      rw [List.take_left'
        (by simp [List.length_take, List.length_set, hdroplen]; omega)]
      rw [take_succ_set _ pos value (by omega)]
      have hpre : (Resize v (v.size_ + 1)).items_.take pos = (live v).take pos := by
        have hmin : pos ⊓ (v.size_ + 1) = pos := by omega
        have h1 : (Resize v (v.size_ + 1)).items_.take pos
            = ((Resize v (v.size_ + 1)).items_.take (v.size_ + 1)).take pos := by
          rw [List.take_take, hmin]
        rw [h1, hR.1,
          List.take_append_of_le_length (by simp [List.length_take]; omega)]
        unfold live
        rw [List.take_take]
      rw [hpre]
      simp
    · show (Resize v (v.size_ + 1)).size_ - (v.size_ - pos) - 1 = pos
      rw [Resize_size]
      omega

/-- Witness for C5: the spec's concrete examples — inserting 9 at begin,
middle and end of `{1, 2, 3}` (a full-capacity vector, so the buffer is
reallocated) and into an empty vector. -/
theorem c5_insert_spec_witness :
    live (Insert (mkInit [1, 2, 3] : SimpleVector Nat) 0 9).1 = [9, 1, 2, 3] ∧
    live (Insert (mkInit [1, 2, 3] : SimpleVector Nat) 1 9).1 = [1, 9, 2, 3] ∧
    live (Insert (mkInit [1, 2, 3] : SimpleVector Nat) 3 9).1 = [1, 2, 3, 9] ∧
    (Insert (mkInit [1, 2, 3] : SimpleVector Nat) 1 9).1.size_ = 4 ∧
    (Insert (mkInit [1, 2, 3] : SimpleVector Nat) 1 9).2 = 1 ∧
    live (Insert (mkDefault : SimpleVector Nat) 0 9).1 = [9] :=
  ⟨(c5_insert_spec (mkInit [1, 2, 3]) 0 9 (by decide) (by decide)).1,
   (c5_insert_spec (mkInit [1, 2, 3]) 1 9 (by decide) (by decide)).1,
   (c5_insert_spec (mkInit [1, 2, 3]) 3 9 (by decide) (by decide)).1,
   (c5_insert_spec (mkInit [1, 2, 3]) 1 9 (by decide) (by decide)).2.1,
   (c5_insert_spec (mkInit [1, 2, 3]) 1 9 (by decide) (by decide)).2.2,
   (c5_insert_spec (mkDefault : SimpleVector Nat) 0 9 (by decide) (by decide)).1⟩

/-- Claim C6: for every well-formed non-empty vector and live position `pos`,
`Erase` removes the element at `pos` by shifting all subsequent elements one
slot earlier, decrements the size by 1, and returns the iterator at index
`pos` — the slot now holding the element that followed the erased one, or the
new end when the erased element was last. -/
theorem c6_erase_spec {α : Type} (v : SimpleVector α) (pos : Nat)
    (hwf : WF v) (hpos : pos < v.size_) :
    ∃ v', Erase v pos = some (v', pos) ∧
      v'.size_ = v.size_ - 1 ∧
      live v' = (live v).take pos ++ (live v).drop (pos + 1) := by
  obtain ⟨hsc, hlen⟩ := hwf
  have hsz : ¬ v.size_ = 0 := by omega
  unfold Erase
  rw [if_neg hsz]
  refine ⟨_, rfl, rfl, ?_⟩
  have hmovedlen : ((v.items_.drop (pos + 1)).take (v.size_ - (pos + 1))).length
      = v.size_ - (pos + 1) := by
    simp [List.length_take, List.length_drop]
    omega
  show (writeSeq v.items_ pos
        ((v.items_.drop (pos + 1)).take (v.size_ - (pos + 1)))).take (v.size_ - 1)
      = (live v).take pos ++ (live v).drop (pos + 1)
  rw [writeSeq_eq_append _ _ _ (by rw [hmovedlen]; omega)]
  rw [List.take_left' (by simp [List.length_take, hmovedlen]; omega)]
  unfold live
  rw [List.take_take, List.drop_take]
  have hmin : pos ⊓ v.size_ = pos := by omega
  rw [hmin]

/-- Witness for C6: the spec's concrete examples — erasing at begin of
`{1, 2, 3}` yields `{2, 3}`, erasing at the last position yields `{1, 2}`. -/
theorem c6_erase_spec_witness :
    (∃ v', Erase (mkInit [1, 2, 3] : SimpleVector Nat) 0 = some (v', 0) ∧
      v'.size_ = 2 ∧ live v' = [2, 3]) ∧
    (∃ v', Erase (mkInit [1, 2, 3] : SimpleVector Nat) 2 = some (v', 2) ∧
      v'.size_ = 2 ∧ live v' = [1, 2]) :=
  ⟨c6_erase_spec (mkInit [1, 2, 3]) 0 (by decide) (by decide),
   c6_erase_spec (mkInit [1, 2, 3]) 2 (by decide) (by decide)⟩

/-- Witness for C10: the guard fires on equal-valued distinct objects and
does not fire when the values differ. -/
theorem c10_assign_asserts_on_equal_witness :
    copyAssign (mkInit [1, 2] : SimpleVector Nat) (mkInit [1, 2]) = none ∧
    moveAssign (mkInit [3] : SimpleVector Nat) (mkInit [1, 2]) ≠ none :=
  ⟨(c10_assign_asserts_on_equal (mkInit [1, 2]) (mkInit [1, 2])).2.1.mpr (by decide),
   fun h =>
     absurd ((c10_assign_asserts_on_equal (mkInit [3]) (mkInit [1, 2])).2.2.mp h)
       (by decide)⟩

end SpecVector
